import Mathlib

set_option maxRecDepth 100000

/-!
Verification of the mashop-dashboard history pipeline (src/mashop).

Shallow embedding conventions:
* pandas DataFrames of history rows are modelled as `List Row`;
* `pd.to_datetime(..., errors="coerce")` / `datetime.fromisoformat` on the
  two timestamp renderings the pipeline itself produces
  (`YYYY-MM-DDTHH:MM:SS` from `strftime`, `YYYY-MM-DD HH:MM:SS` from
  pandas `to_csv` of a datetime column) are modelled by `to_datetime`;
* timestamps are mapped to a linear scale of seconds (`secOfDT`) through a
  proleptic-Gregorian day count defined by structural recursion
  (`daysBeforeYear`, `cumMonth`);
* Python string comparison (code-point lexicographic, used by pandas
  `sort_values` on an object column) is modelled by `strLeB`;
* Python floats in the price formatter are modelled by `ℚ` (the claims only
  exercise values where float rounding is exact), with `None`/`NaN` as
  explicit constructors.
-/

/-- Calendar day-of-month table; `leap` is the leap-year flag.  Months are
1-based; out-of-range months get 0 days (such dates are rejected by
`validDT`). -/
def monthDays (leap : Bool) (m : Nat) : Nat :=
  match m with
  | 1 => 31
  | 2 => if leap then 29 else 28
  | 3 => 31
  | 4 => 30
  | 5 => 31
  | 6 => 30
  | 7 => 31
  | 8 => 31
  | 9 => 30
  | 10 => 31
  | 11 => 30
  | 12 => 31
  | _ => 0

/-- Proleptic Gregorian leap-year rule (as used by Python `datetime` and
pandas timestamps). -/
def isLeap (y : Nat) : Bool :=
  (y % 4 == 0 && y % 100 != 0) || y % 400 == 0

/-- Days in months `1..m` of a year with leap flag `leap`. -/
def cumMonth (leap : Bool) : Nat → Nat
  | 0 => 0
  | m + 1 => cumMonth leap m + monthDays leap (m + 1)

/-- Leap years among `0..y-1` (year 0 is a leap year): the multiples of 4,
plus the multiples of 400, minus the multiples of 100. -/
def leapsBefore (y : Nat) : Nat :=
  (y + 3) / 4 + (y + 399) / 400 - (y + 99) / 100

/-- Days in all years `0..y-1` (proleptic Gregorian, year 0 included). -/
def daysBeforeYear (y : Nat) : Nat :=
  365 * y + leapsBefore y

/-- A parsed timestamp (what `pandas.Timestamp` / `datetime` carry, at
second precision, timezone-naive). -/
structure DT where
  year : Nat
  month : Nat
  day : Nat
  hour : Nat
  minute : Nat
  second : Nat
deriving DecidableEq, Repr

/-- Field-validity of a parsed timestamp: real calendar date (month 1-12,
day within the month), clock fields in range, 4-digit year. -/
def validDT (t : DT) : Bool :=
  decide (1 ≤ t.month) && decide (t.month ≤ 12) &&
  decide (1 ≤ t.day) && decide (t.day ≤ monthDays (isLeap t.year) t.month) &&
  decide (t.hour ≤ 23) && decide (t.minute ≤ 59) && decide (t.second ≤ 59) &&
  decide (t.year ≤ 9999)

/-- Day index of a date on the linear proleptic-Gregorian scale
(0000-01-01 is day 0). -/
def dayNumber (t : DT) : Nat :=
  daysBeforeYear t.year + cumMonth (isLeap t.year) (t.month - 1) + (t.day - 1)

/-- Seconds since 0000-01-01T00:00:00 — the linear order on which pandas
timestamp comparison and `Timedelta` arithmetic act. -/
def secOfDT (t : DT) : Nat :=
  dayNumber t * 86400 + t.hour * 3600 + t.minute * 60 + t.second

/-- Digit character of `n % 10` (code point 48 + digit). -/
def dChar (n : Nat) : Char := Char.ofNat (48 + n % 10)

/-- The numeric value of a digit character. -/
def dVal (c : Char) : Nat := c.toNat - 48

/-- Is `c` an ASCII digit? -/
def isDigitChar (c : Char) : Bool := decide ('0' ≤ c) && decide (c ≤ '9')

/-- Two-digit zero-padded rendering, as `strftime` `%m`/`%d`/`%H`/`%M`/`%S`. -/
def two_digit (n : Nat) : List Char := [dChar (n / 10), dChar n]

/-- Four-digit zero-padded rendering, as `strftime` `%Y` for years < 10000. -/
def four_digit (n : Nat) : List Char :=
  [dChar (n / 1000), dChar (n / 100), dChar (n / 10), dChar n]

/-- `dt.strftime("%Y-%m-%dT%H:%M:%S")` — the canonical dateTime string the
fetch step stores (build.py line 58). -/
def renderDT (t : DT) : String :=
  String.mk (four_digit t.year ++ '-' :: two_digit t.month ++ '-' :: two_digit t.day
    ++ 'T' :: two_digit t.hour ++ ':' :: two_digit t.minute ++ ':' :: two_digit t.second)

/-- `dt.strftime("%Y-%m-%d")`. -/
def renderDate (t : DT) : String :=
  String.mk (four_digit t.year ++ '-' :: two_digit t.month ++ '-' :: two_digit t.day)

/-- `dt.strftime("%H:%M")`. -/
def renderTime (t : DT) : String :=
  String.mk (two_digit t.hour ++ ':' :: two_digit t.minute)

/-- Reads a timestamp string in either of the two renderings the pipeline
produces (`T` separator from `strftime`, space separator from pandas
`to_csv` of a datetime column), validating calendar and clock fields.
Models `pd.to_datetime(s, errors="coerce")` (giving `none` for `NaT`) and
`datetime.fromisoformat` on offset-free strings. -/
def to_datetime (s : String) : Option DT :=
  match s.data with
  | [y1, y2, y3, y4, c1, m1, m2, c2, d1, d2, sep, h1, h2, c3, n1, n2, c4, p1, p2] =>
    if (c1 = '-' && c2 = '-' && c3 = ':' && c4 = ':' && (sep = 'T' || sep = ' ') &&
        isDigitChar y1 && isDigitChar y2 && isDigitChar y3 && isDigitChar y4 &&
        isDigitChar m1 && isDigitChar m2 && isDigitChar d1 && isDigitChar d2 &&
        isDigitChar h1 && isDigitChar h2 && isDigitChar n1 && isDigitChar n2 &&
        isDigitChar p1 && isDigitChar p2 : Bool) then
      let t : DT :=
        { year := dVal y1 * 1000 + dVal y2 * 100 + dVal y3 * 10 + dVal y4
          month := dVal m1 * 10 + dVal m2
          day := dVal d1 * 10 + dVal d2
          hour := dVal h1 * 10 + dVal h2
          minute := dVal n1 * 10 + dVal n2
          second := dVal p1 * 10 + dVal p2 }
      if validDT t then some t else none
    else none
  | _ => none

/-- Code-point lexicographic strict comparison on character lists — the
order Python uses to compare `str` values (and hence what pandas
`sort_values` applies to an object column of strings). -/
def chListLt : List Char → List Char → Bool
  | [], [] => false
  | [], _ :: _ => true
  | _ :: _, [] => false
  | a :: as, b :: bs => decide (a < b) || (decide (a = b) && chListLt as bs)

/-- Python `s1 <= s2` on strings. -/
def strLeB (s1 s2 : String) : Bool :=
  !chListLt s2.data s1.data

example : to_datetime "2025-06-01T10:00:00" =
    some ⟨2025, 6, 1, 10, 0, 0⟩ := by decide
example : to_datetime "2025-06-01 10:30:05" =
    some ⟨2025, 6, 1, 10, 30, 5⟩ := by decide
example : to_datetime "not-a-date" = none := by decide
example : to_datetime "2025-02-30T10:00:00" = none := by decide
example : renderDT ⟨2025, 6, 1, 10, 0, 0⟩ = "2025-06-01T10:00:00" := by decide
example : strLeB "2025-06-01T10:00:00" "2025-06-02T09:00:00" = true := by decide

/-- config.py `WEEKDAY_KR`. -/
def WEEKDAY_KR : List String := ["월", "화", "수", "목", "금", "토", "일"]

/-- util.py `weekday_kr`: `WEEKDAY_KR[dt.weekday()]` (Python `weekday()`
is Monday = 0; `dayNumber + 5` realigns the day-0 anchor to Monday). -/
def weekday_kr (t : DT) : String :=
  (WEEKDAY_KR[(dayNumber t + 5) % 7]?).getD ""

example : weekday_kr ⟨2025, 6, 1, 10, 0, 0⟩ = "일" := by decide
example : weekday_kr ⟨2025, 6, 2, 0, 0, 0⟩ = "월" := by decide

/-- config.py `HOUR_ORDER`:
`[f"{h:02d}:00" for h in range(1, 24)] + ["00:00"]`. -/
def HOUR_ORDER : List String :=
  ((List.range' 1 23).map fun h => String.mk (two_digit h ++ [':', '0', '0'])) ++ ["00:00"]

example : HOUR_ORDER.length = 24 := by decide

/-- One row of a per-location history DataFrame (columns of
`data/maps/<slug>/history.csv`; storage.py line 74).  `price` and
`tradeCount` are the post-`to_numeric(errors="coerce")` column values,
with `none` standing for missing/NaN. -/
structure Row where
  mapName : String
  dateTime : String
  date : String
  time : String
  weekday : String
  price : Option ℚ
  tradeCount : Option ℚ
  timeUnit : Option String
deriving DecidableEq, Repr

/-- build.py `_merge_history`'s `_fill_row` (lines 94-103): if any of the
derived `date`/`time`/`weekday` fields is falsy (modelled as `""`), re-parse
`dateTime` and backfill the falsy ones; on parse failure keep the row
unchanged (`except: pass`). -/
def fillRow (r : Row) : Row :=
  if r.date = "" || r.time = "" || r.weekday = "" then
    match to_datetime r.dateTime with
    | some dt =>
      { r with
        date := if r.date = "" then renderDate dt else r.date
        time := if r.time = "" then renderTime dt else r.time
        weekday := if r.weekday = "" then weekday_kr dt else r.weekday }
    | none => r
  else r

/-- pandas `drop_duplicates(subset=[key], keep="last")`: keeps, in order,
each row that has no later row with the same key. -/
def keepLastByKey (key : Row → String) : List Row → List Row
  | [] => []
  | r :: rest =>
    if rest.any fun x => key x = key r then keepLastByKey key rest
    else r :: keepLastByKey key rest

/-- build.py `_merge_history` (lines 75-106): concatenate old and new,
deduplicate on the `dateTime` column keeping the last occurrence, sort
ascending by the `dateTime` strings (pandas `sort_values` on an object
column compares Python strings), then backfill missing derived fields.
(The `astype(str)` and the repeated `to_numeric` coercions are identities
in this model, where `dateTime` is already a string and prices already
numeric-or-missing.) -/
def _merge_history (old_df new_df : List Row) : List Row :=
  let merged :=
    if old_df.isEmpty then new_df
    else if new_df.isEmpty then old_df
    else old_df ++ new_df
  if merged.isEmpty then merged
  else
    let d := keepLastByKey (fun r => r.dateTime) merged
    let s := List.insertionSort (fun a b => strLeB a.dateTime b.dateTime = true) d
    s.map fillRow

/-- storage.py `_ensure_datetime_col` + the `valid_mask` step of
`trim_history_days`: each row tagged with its parsed timestamp (in
seconds), parse failures (`NaT`) dropped. -/
def valid_rows (df : List Row) : List (Row × Nat) :=
  df.filterMap fun r => (to_datetime r.dateTime).map fun t => (r, secOfDT t)

/-- `ts2.max()` of storage.py line 157: the largest parsed timestamp
(0 for an empty tag list; `trim_history_days` only uses it when the list
is non-empty). -/
def latest_ts (df : List Row) : Nat :=
  ((valid_rows df).map fun p => p.2).foldl max 0

/-- storage.py `trim_history_days` (lines 133-166): drop rows whose
`dateTime` does not parse, compute `cutoff = latest - Timedelta(days=keep_days)`
(a pandas day is exactly 86400 s on naive timestamps), keep rows with
timestamp `>= cutoff`, and return them sorted ascending by parsed
timestamp.  (Line 164 converts the `dateTime` column to datetime dtype
before sorting; the model keeps the original string and sorts on the
parsed value, which is the same ordering.) -/
def trim_history_days (df : List Row) (keep_days : Nat) : List Row :=
  if df.isEmpty then df
  else
    let valid := valid_rows df
    if valid.isEmpty then []
    else
      let latest : Int := latest_ts df
      let cutoff : Int := latest - keep_days * 86400
      let kept := valid.filter fun p => decide (cutoff ≤ (p.2 : Int))
      (List.insertionSort (fun a b : Row × Nat => a.2 ≤ b.2) kept).map fun p => p.1

/-- A Python numeric argument of `_format_price_kr`: absent (`None`),
float NaN, or an exactly-represented numeric value. -/
inductive PyNum where
  | pnone : PyNum
  | pnan : PyNum
  | pnum (q : ℚ) : PyNum
deriving DecidableEq, Repr

/-- Python `round(q)` (no digits argument): round-half-to-even to an
integer. -/
def roundHalfEven (q : ℚ) : ℤ :=
  let f := ⌊q⌋
  let r := q - f
  if r < 1 / 2 then f
  else if 1 / 2 < r then f + 1
  else if f % 2 = 0 then f else f + 1

/-- Python `round(q, 1)`: round-half-to-even at one decimal place. -/
def round1 (q : ℚ) : ℚ :=
  (roundHalfEven (10 * q) : ℚ) / 10

/-- Rendering of the one-decimal float `f"{eok_r}억"` produces in the
non-integral branch of `_format_price_kr`: CPython prints such a value as
`<int part>.<one digit>`. -/
def reprOneDecimal (q : ℚ) : String :=
  let k := roundHalfEven (10 * q)
  toString (k / 10) ++ "." ++ toString (k % 10)

/-- build.py `_format_price_kr` (lines 109-129). -/
def _format_price_kr (x : PyNum) : String :=
  match x with
  | .pnone => "-"
  | .pnan => "-"
  | .pnum q =>
    let v := if q < 0 then -q else q
    if 100000000 ≤ v then
      let eok := v / 100000000
      let eok_r := round1 eok
      if |eok_r - (roundHalfEven eok_r : ℚ)| < 1 / 1000000000 then
        toString (roundHalfEven eok_r) ++ "억"
      else
        reprOneDecimal eok_r ++ "억"
    else
      let man := roundHalfEven (v / 10000)
      toString man ++ "만"

example : _format_price_kr (.pnum 99999999) = "10000만" := by
  norm_num [_format_price_kr, roundHalfEven]; decide
example : _format_price_kr (.pnum 100000000) = "1억" := by
  norm_num [_format_price_kr, round1, roundHalfEven]; decide
example : _format_price_kr (.pnum 150000000) = "1.5억" := by
  norm_num [_format_price_kr, reprOneDecimal, round1, roundHalfEven]
  rw [if_neg (by rw [abs_of_pos (by norm_num : (0:ℚ) < 1/2)]; norm_num)]
  decide
example : _format_price_kr .pnone = "-" := by decide
example : _format_price_kr .pnan = "-" := by decide

/-- One entry of the per-hour hover list of `build_daily_series`:
`[time, price_str, trade_str, date, weekday]`. -/
structure HoverEntry where
  time : String
  priceStr : String
  tradeStr : String
  date : String
  weekday : String
deriving DecidableEq, Repr

/-- One element of the list `build_daily_series` returns:
`{"label": d, "x": x, "y": y, "hover": hover}`. -/
structure DailySeriesPack where
  label : String
  x : List String
  y : List (Option ℚ)
  hover : List HoverEntry
deriving DecidableEq, Repr

/-- `f"{int(round(float(tc)))}"` when a trade count is present, `"-"`
otherwise (build.py lines 172-174). -/
def tradeStrOf (tc : Option ℚ) : String :=
  match tc with
  | none => "-"
  | some c => toString (roundHalfEven c)

/-- `drop_duplicates(subset=["time"], keep="last")` on a date group, keyed
by the `time` label derived from the parsed timestamp (build.py line 154). -/
def keepLastTimeSlot : List (Row × DT) → List (Row × DT)
  | [] => []
  | p :: rest =>
    if rest.any fun q => renderTime q.2 = renderTime p.2 then keepLastTimeSlot rest
    else p :: keepLastTimeSlot rest

/-- The pack `build_daily_series` builds for one date group `(d, g)`
(build.py lines 152-177): `g` sorted ascending by parsed timestamp, rows
deduplicated on the derived `time` label keeping the last, then one
y-value and one hover entry per `HOUR_ORDER` slot. -/
def packForDate (d : String) (g : List (Row × DT)) : DailySeriesPack :=
  let gs := List.insertionSort
    (fun a b : Row × DT => secOfDT a.2 ≤ secOfDT b.2) g
  let lbt := keepLastTimeSlot gs
  let x := HOUR_ORDER
  let y := x.map fun t =>
    match lbt.find? fun p => renderTime p.2 = t with
    | some p => p.1.price
    | none => none
  let hover := x.map fun t =>
    match lbt.find? fun p => renderTime p.2 = t with
    | some p =>
      let wd := if p.1.weekday = "" then "-" else p.1.weekday
      match p.1.price with
      | none => { time := t, priceStr := "-", tradeStr := "-", date := d, weekday := wd }
      | some pr =>
        { time := t, priceStr := _format_price_kr (.pnum pr),
          tradeStr := tradeStrOf p.1.tradeCount, date := d, weekday := wd }
    | none => { time := t, priceStr := "-", tradeStr := "-", date := d, weekday := "-" }
  { label := d, x := x, y := y, hover := hover }

/-- build.py `build_daily_series` (lines 132-180): parse the `dateTime`
column (`errors="coerce"`), drop unparseable rows, re-derive the `date`
and `time` labels from the parsed value, group by date (pandas `groupby`
yields groups in ascending key order, and the final `packs.sort` by label
re-establishes the same order), and build one pack per date. -/
def build_daily_series (df : List Row) : List DailySeriesPack :=
  let sub := df.filterMap fun r => (to_datetime r.dateTime).map fun t => (r, t)
  if sub.isEmpty then []
  else
    let dates := List.insertionSort (fun a b => strLeB a b = true)
      ((sub.map fun p => renderDate p.2).dedup)
    dates.map fun d => packForDate d (sub.filter fun p => renderDate p.2 = d)

/-- A JSON value, as `requests.Response.json()` returns it. -/
inductive Json where
  | list (xs : List Json) : Json
  | obj (kvs : List (String × Json)) : Json
  | str (s : String) : Json
  | num (q : ℚ) : Json
  | bool (b : Bool) : Json
  | null : Json

/-- Python `data[k]` on a dict (keys are unique in a Python dict; an
association list models one, looking up the first binding). -/
def dictLookup (kvs : List (String × Json)) (k : String) : Option Json :=
  (kvs.find? fun kv => kv.1 = k).map fun kv => kv.2

/-- api.py line 23: the envelope keys tried, in order. -/
def envelopeKeys : List String := ["data", "items", "result", "content"]

/-- The loop of api.py lines 23-25: first key in `envelopeKeys` that is
present with a list value. -/
def firstListUnder (kvs : List (String × Json)) : List String → Option (List Json)
  | [] => none
  | k :: ks =>
    match dictLookup kvs k with
    | some (Json.list l) => some l
    | _ => firstListUnder kvs ks

/-- api.py `fetch_period`, lines 19-27: the response-body shape handling
(the HTTP GET, `raise_for_status` and JSON decoding above it are I/O and
outside this model; this is the total function applied to the decoded
body). -/
def fetch_period_shape (data : Json) : List Json :=
  match data with
  | Json.list xs => xs
  | Json.obj kvs => (firstListUnder kvs envelopeKeys).getD []
  | _ => []

/-- A Python `datetime` as `fromisoformat` returns it: a wall-clock value
(seconds on the local clock of its zone) together with its UTC offset in
seconds — `none` when the datetime is naive.  `dateTime` strings with a
trailing `Z` reach `fromisoformat` as `+00:00` (util.py line 58), i.e. as
`off = some 0`. -/
structure PyDatetime where
  clock : Int
  off : Option Int
deriving DecidableEq, Repr

/-- `datetime.replace(tzinfo=...)`: reinterpret the same wall-clock value
in another zone (the clock digits do not move). -/
def replaceTz (d : PyDatetime) (off : Option Int) : PyDatetime :=
  { d with off := off }

/-- `datetime.astimezone(tz)` on an aware datetime: keep the instant,
move the wall clock to the target offset.  (util.py only calls it on
aware values; on a naive value the model keeps it unchanged.) -/
def astimezone (d : PyDatetime) (tz : Int) : PyDatetime :=
  match d.off with
  | some o => { clock := d.clock - o + tz, off := some tz }
  | none => d

/-- The fixed target zone: `ZoneInfo("Asia/Seoul")`, UTC+9 with no
daylight-saving transitions. -/
def KST_OFFSET : Int := 9 * 3600

/-- util.py `parse_dt` (lines 47-70), after `fromisoformat`: attach KST to
a naive value, convert an aware value to KST, and strip the zone. -/
def parse_dt (d : PyDatetime) : PyDatetime :=
  let dt := if d.off = none then replaceTz d (some KST_OFFSET)
            else astimezone d KST_OFFSET
  replaceTz dt none

/-- The UTC instant an aware datetime denotes. -/
def utcInstant (clock off : Int) : Int := clock - off

/-- The `time` column value `_collect_recent_df` stores for a parsed
timestamp: `dt.strftime("%H:%M")` (build.py line 60). -/
def collect_time_field (dt : DT) : String := renderTime dt

/-- The `date` column value `_collect_recent_df` stores:
`dt.strftime("%Y-%m-%d")` (build.py line 59). -/
def collect_date_field (dt : DT) : String := renderDate dt

/-- What the spec says the `time` field is: the local hour truncated to
`HH:00`.  Modelled from the spec (not from the code) for comparison with
`collect_time_field`. -/
def spec_time_field (dt : DT) : String :=
  String.mk (two_digit dt.hour ++ [':', '0', '0'])

/-- The outcome of one `pd.read_csv` attempt on an existing history file:
either the parsed table or a raised exception. -/
inductive CsvRead where
  | ok (df : List Row) : CsvRead
  | raise : CsvRead
deriving DecidableEq, Repr

/-- The filesystem state `read_history` sees for one location: whether
`history.csv` exists, and what each of the two `pd.read_csv` attempts
(utf-8, then utf-8-sig) would yield on its content.  (The model keeps the
post-parse table as `List Row`; the column-defense loop of storage.py
lines 83-85 and the dtype coercions are identities on it, since `Row`
already carries every standard column.) -/
structure FileState where
  fileExists : Bool
  readUtf8 : CsvRead
  readUtf8Sig : CsvRead
deriving DecidableEq, Repr

/-- The empty, well-shaped history frame of storage.py lines 72-75: the
standard column set with zero rows. -/
def emptyHistory : List Row := []

/-- storage.py `read_history` (lines 67-90): a missing file yields the
empty well-shaped frame; an existing file is read with utf-8, retried
with utf-8-sig on failure; a failure of the retry propagates
(`Except.error`) — there is no fallback to an empty frame for an
unreadable existing file, and build.py line 247 calls `read_history`
outside its `try` block, so such an error aborts the run. -/
def read_history (fs : FileState) : Except Unit (List Row) :=
  if fs.fileExists = false then Except.ok emptyHistory
  else
    match fs.readUtf8 with
    | CsvRead.ok df => Except.ok df
    | CsvRead.raise =>
      match fs.readUtf8Sig with
      | CsvRead.ok df => Except.ok df
      | CsvRead.raise => Except.error ()

/-! ### Digit characters and lexicographic order -/

lemma dChar_lt_iff (u v : Nat) : dChar u < dChar v ↔ u % 10 < v % 10 := by
  have h : ∀ a, a < 10 → ∀ b, b < 10 →
      (Char.ofNat (48 + a) < Char.ofNat (48 + b) ↔ a < b) := by decide
  exact h (u % 10) (Nat.mod_lt u (by norm_num)) (v % 10) (Nat.mod_lt v (by norm_num))

lemma dChar_eq_iff (u v : Nat) : dChar u = dChar v ↔ u % 10 = v % 10 := by
  have h : ∀ a, a < 10 → ∀ b, b < 10 →
      (Char.ofNat (48 + a) = Char.ofNat (48 + b) ↔ a = b) := by decide
  exact h (u % 10) (Nat.mod_lt u (by norm_num)) (v % 10) (Nat.mod_lt v (by norm_num))

/-- The mixed-radix key whose order coincides with the lexicographic order
of the 14-digit field rendering. -/
def fieldKey (t : DT) : Nat :=
  ((((t.year * 100 + t.month) * 100 + t.day) * 100 + t.hour) * 100 + t.minute) * 100
    + t.second

lemma validDT_fields {t : DT} (h : validDT t = true) :
    1 ≤ t.month ∧ t.month ≤ 12 ∧ 1 ≤ t.day ∧
    t.day ≤ monthDays (isLeap t.year) t.month ∧
    t.hour ≤ 23 ∧ t.minute ≤ 59 ∧ t.second ≤ 59 ∧ t.year ≤ 9999 := by
  simp only [validDT, Bool.and_eq_true, decide_eq_true_eq] at h
  tauto

lemma monthDays_le_31 (leap : Bool) (m : Nat) : monthDays leap m ≤ 31 := by
  unfold monthDays
  split <;> first | omega | (split <;> omega)

lemma chListLt_cons_same (c : Char) (ta tb : List Char) :
    (chListLt (c :: ta) (c :: tb) = true) ↔ chListLt ta tb = true := by
  simp [chListLt]

lemma chListLt_digits2 (x1 y1 x2 y2 : Nat)
    (hx1 : x1 < 10) (hy1 : y1 < 10) (hx2 : x2 < 10) (hy2 : y2 < 10)
    (ta tb : List Char) :
    (chListLt (dChar x1 :: dChar y1 :: ta) (dChar x2 :: dChar y2 :: tb) = true) ↔
      (10 * x1 + y1 < 10 * x2 + y2 ∨
        (10 * x1 + y1 = 10 * x2 + y2 ∧ chListLt ta tb = true)) := by
  simp only [chListLt, Bool.or_eq_true, Bool.and_eq_true, decide_eq_true_eq,
    dChar_lt_iff, dChar_eq_iff]
  by_cases hP : chListLt ta tb = true <;> simp only [hP] <;> simp <;> omega

lemma dChar_mod (a : Nat) : dChar (a % 10) = dChar a := by
  unfold dChar
  congr 1
  omega

lemma two_digit_eq_digits (a : Nat) (ta : List Char) :
    two_digit a ++ ta = dChar (a / 10) :: dChar (a % 10) :: ta := by
  simp [two_digit, dChar_mod]

lemma chListLt_two_digit (a b : Nat) (ha : a < 100) (hb : b < 100)
    (ta tb : List Char) :
    (chListLt (two_digit a ++ ta) (two_digit b ++ tb) = true) ↔
      (a < b ∨ (a = b ∧ chListLt ta tb = true)) := by
  rw [two_digit_eq_digits, two_digit_eq_digits,
    chListLt_digits2 _ _ _ _ (by omega) (by omega) (by omega) (by omega)]
  by_cases hP : chListLt ta tb = true <;> simp only [hP] <;> simp <;> omega

lemma chListLt_two_digit_last (a b : Nat) (ha : a < 100) (hb : b < 100) :
    (chListLt (two_digit a) (two_digit b) = true) ↔ a < b := by
  have h := chListLt_two_digit a b ha hb [] []
  simpa [chListLt] using h

lemma four_digit_split (y : Nat) :
    four_digit y = two_digit (y / 100) ++ two_digit (y % 100) := by
  have c1 : dChar (y / 100 / 10) = dChar (y / 1000) := by
    rw [Nat.div_div_eq_div_mul]
  have h1 : y / 10 % 10 = y % 100 / 10 := by
    have := Nat.mod_mul_right_div_self y 10 10
    simpa using this.symm
  have c3 : dChar (y % 100 / 10) = dChar (y / 10) := by
    unfold dChar
    congr 1
    have h2 : y % 100 / 10 % 10 = y % 100 / 10 := Nat.mod_eq_of_lt (by omega)
    omega
  have c4 : dChar (y % 100) = dChar y := by
    unfold dChar
    congr 1
    omega
  simp only [four_digit, two_digit, List.cons_append, List.nil_append]
  rw [c1, c3, c4]

lemma chListLt_render_iff {t1 t2 : DT}
    (h1 : validDT t1 = true) (h2 : validDT t2 = true) :
    (chListLt (renderDT t1).data (renderDT t2).data = true) ↔
      fieldKey t1 < fieldKey t2 := by
  obtain ⟨m1a, m1b, d1a, d1b, h1a, n1a, s1a, y1a⟩ := validDT_fields h1
  obtain ⟨m2a, m2b, d2a, d2b, h2a, n2a, s2a, y2a⟩ := validDT_fields h2
  have mb1 := monthDays_le_31 (isLeap t1.year) t1.month
  have mb2 := monthDays_le_31 (isLeap t2.year) t2.month
  have e1 : (renderDT t1).data = four_digit t1.year ++ '-' :: (two_digit t1.month
      ++ '-' :: (two_digit t1.day ++ 'T' :: (two_digit t1.hour
      ++ ':' :: (two_digit t1.minute ++ ':' :: two_digit t1.second)))) := rfl
  have e2 : (renderDT t2).data = four_digit t2.year ++ '-' :: (two_digit t2.month
      ++ '-' :: (two_digit t2.day ++ 'T' :: (two_digit t2.hour
      ++ ':' :: (two_digit t2.minute ++ ':' :: two_digit t2.second)))) := rfl
  rw [e1, e2, four_digit_split t1.year, four_digit_split t2.year,
    List.append_assoc, List.append_assoc]
  rw [chListLt_two_digit _ _ (by omega) (by omega)]
  rw [chListLt_two_digit _ _ (by omega) (by omega)]
  rw [chListLt_cons_same]
  rw [chListLt_two_digit _ _ (by omega) (by omega)]
  rw [chListLt_cons_same]
  rw [chListLt_two_digit _ _ (by omega) (by omega)]
  rw [chListLt_cons_same]
  rw [chListLt_two_digit _ _ (by omega) (by omega)]
  rw [chListLt_cons_same]
  rw [chListLt_two_digit _ _ (by omega) (by omega)]
  rw [chListLt_cons_same]
  rw [chListLt_two_digit_last _ _ (by omega) (by omega)]
  simp only [fieldKey]
  omega


/-! ### Calendar arithmetic -/

lemma daysBeforeYear_succ (y : Nat) :
    daysBeforeYear (y + 1) = daysBeforeYear y + (if isLeap y then 366 else 365) := by
  unfold daysBeforeYear leapsBefore
  split
  next h =>
    unfold isLeap at h
    simp only [Bool.or_eq_true, Bool.and_eq_true, beq_iff_eq, bne_iff_ne, ne_eq] at h
    omega
  next h =>
    unfold isLeap at h
    simp only [Bool.or_eq_true, Bool.and_eq_true, beq_iff_eq, bne_iff_ne, ne_eq] at h
    omega

lemma daysBeforeYear_mono {y1 y2 : Nat} (h : y1 ≤ y2) :
    daysBeforeYear y1 ≤ daysBeforeYear y2 := by
  unfold daysBeforeYear leapsBefore
  omega

lemma daysBeforeYear_step {y1 y2 : Nat} (h : y1 < y2) :
    daysBeforeYear y1 + (if isLeap y1 then 366 else 365) ≤ daysBeforeYear y2 := by
  calc daysBeforeYear y1 + (if isLeap y1 then 366 else 365)
      = daysBeforeYear (y1 + 1) := (daysBeforeYear_succ y1).symm
    _ ≤ daysBeforeYear y2 := daysBeforeYear_mono h

lemma inYear_lt_yearLen : ∀ (leap : Bool), ∀ m, m < 13 → ∀ d, d < 32 →
    1 ≤ m → 1 ≤ d → d ≤ monthDays leap m →
    cumMonth leap (m - 1) + (d - 1) < (if leap then 366 else 365) := by
  intro leap
  cases leap <;> decide

lemma cumMonth_mono (leap : Bool) {m1 m2 : Nat} (h : m1 ≤ m2) :
    cumMonth leap m1 ≤ cumMonth leap m2 := by
  induction m2 with
  | zero =>
    have : m1 = 0 := by omega
    subst this
    exact Nat.le_refl _
  | succ n ih =>
    rcases Nat.lt_or_ge m1 (n + 1) with hlt | hge
    · have h1 := ih (by omega)
      have h2 : cumMonth leap (n + 1) = cumMonth leap n + monthDays leap (n + 1) := rfl
      omega
    · have : m1 = n + 1 := by omega
      subst this
      exact Nat.le_refl _

lemma cumMonth_strict (leap : Bool) {m1 m2 d1 : Nat}
    (hm1 : 1 ≤ m1) (hlt : m1 < m2) (hd : 1 ≤ d1) (hdb : d1 ≤ monthDays leap m1) :
    cumMonth leap (m1 - 1) + (d1 - 1) < cumMonth leap (m2 - 1) := by
  have h1 : cumMonth leap m1 = cumMonth leap (m1 - 1) + monthDays leap m1 := by
    have he : m1 - 1 + 1 = m1 := by omega
    conv_lhs => rw [← he]
    rw [show cumMonth leap (m1 - 1 + 1)
        = cumMonth leap (m1 - 1) + monthDays leap (m1 - 1 + 1) from rfl, he]
  have h2 : cumMonth leap m1 ≤ cumMonth leap (m2 - 1) := cumMonth_mono leap (by omega)
  omega

/-- Field-lexicographic order on the date part implies day-count order. -/
lemma dayNumber_lt_of_lex {t1 t2 : DT}
    (h1 : validDT t1 = true) (h2 : validDT t2 = true)
    (hlex : t1.year < t2.year ∨ (t1.year = t2.year ∧
      (t1.month < t2.month ∨ (t1.month = t2.month ∧ t1.day < t2.day)))) :
    dayNumber t1 < dayNumber t2 := by
  obtain ⟨m1a, m1b, d1a, d1b, h1a, n1a, s1a, y1a⟩ := validDT_fields h1
  obtain ⟨m2a, m2b, d2a, d2b, h2a, n2a, s2a, y2a⟩ := validDT_fields h2
  have mb1 := monthDays_le_31 (isLeap t1.year) t1.month
  have mb2 := monthDays_le_31 (isLeap t2.year) t2.month
  rcases hlex with hy | ⟨hy, hm | ⟨hm, hd⟩⟩
  · have hin := inYear_lt_yearLen (isLeap t1.year) t1.month (by omega) t1.day
      (by omega) m1a d1a d1b
    have hstep := daysBeforeYear_step hy
    unfold dayNumber
    omega
  · have hcm := cumMonth_strict (isLeap t1.year) m1a hm d1a d1b
    unfold dayNumber
    rw [hy] at hcm ⊢
    omega
  · unfold dayNumber
    rw [hy, hm]
    omega

lemma secOfDT_lt_of_fieldKey_lt {t1 t2 : DT}
    (h1 : validDT t1 = true) (h2 : validDT t2 = true)
    (hk : fieldKey t1 < fieldKey t2) : secOfDT t1 < secOfDT t2 := by
  obtain ⟨m1a, m1b, d1a, d1b, h1a, n1a, s1a, y1a⟩ := validDT_fields h1
  obtain ⟨m2a, m2b, d2a, d2b, h2a, n2a, s2a, y2a⟩ := validDT_fields h2
  have mb1 := monthDays_le_31 (isLeap t1.year) t1.month
  have mb2 := monthDays_le_31 (isLeap t2.year) t2.month
  have hlex : t1.year < t2.year ∨ (t1.year = t2.year ∧
      (t1.month < t2.month ∨ (t1.month = t2.month ∧
        (t1.day < t2.day ∨ (t1.day = t2.day ∧
          (t1.hour < t2.hour ∨ (t1.hour = t2.hour ∧
            (t1.minute < t2.minute ∨ (t1.minute = t2.minute ∧
              t1.second < t2.second))))))))) := by
    simp only [fieldKey] at hk
    omega
  rcases hlex with hy | ⟨hy, hm | ⟨hm, hd | ⟨hd, htime⟩⟩⟩
  · have := dayNumber_lt_of_lex h1 h2 (Or.inl hy)
    unfold secOfDT
    omega
  · have := dayNumber_lt_of_lex h1 h2 (Or.inr ⟨hy, Or.inl hm⟩)
    unfold secOfDT
    omega
  · have := dayNumber_lt_of_lex h1 h2 (Or.inr ⟨hy, Or.inr ⟨hm, hd⟩⟩)
    unfold secOfDT
    omega
  · have hdn : dayNumber t1 = dayNumber t2 := by
      unfold dayNumber
      rw [hy, hm, hd]
    unfold secOfDT
    rw [hdn]
    omega

lemma fieldKey_inj {t1 t2 : DT}
    (h1 : validDT t1 = true) (h2 : validDT t2 = true)
    (hk : fieldKey t1 = fieldKey t2) : t1 = t2 := by
  obtain ⟨m1a, m1b, d1a, d1b, h1a, n1a, s1a, y1a⟩ := validDT_fields h1
  obtain ⟨m2a, m2b, d2a, d2b, h2a, n2a, s2a, y2a⟩ := validDT_fields h2
  have mb1 := monthDays_le_31 (isLeap t1.year) t1.month
  have mb2 := monthDays_le_31 (isLeap t2.year) t2.month
  simp only [fieldKey] at hk
  cases t1
  cases t2
  simp_all only [DT.mk.injEq]
  omega

/-- Key monotonicity of the canonical rendering: Python string order on
two rendered timestamps agrees with the order of the instants. -/
lemma secOfDT_le_of_strLeB {t1 t2 : DT}
    (h1 : validDT t1 = true) (h2 : validDT t2 = true)
    (hle : strLeB (renderDT t1) (renderDT t2) = true) :
    secOfDT t1 ≤ secOfDT t2 := by
  unfold strLeB at hle
  have hlt : chListLt (renderDT t2).data (renderDT t1).data = false := by
    cases hv : chListLt (renderDT t2).data (renderDT t1).data
    · rfl
    · rw [hv] at hle
      cases hle
  have hk : ¬ (fieldKey t2 < fieldKey t1) := by
    intro hcon
    have hc := (chListLt_render_iff h2 h1).mpr hcon
    rw [hc] at hlt
    cases hlt
  rcases Nat.lt_or_ge (fieldKey t1) (fieldKey t2) with hlt2 | hge
  · exact Nat.le_of_lt (secOfDT_lt_of_fieldKey_lt h1 h2 hlt2)
  · have heq : fieldKey t1 = fieldKey t2 := by omega
    rw [fieldKey_inj h1 h2 heq]

lemma chListLt_asymm : ∀ l1 l2 : List Char,
    chListLt l1 l2 = true → chListLt l2 l1 = false := by
  intro l1
  induction l1 with
  | nil =>
    intro l2 h
    cases l2 <;> simp [chListLt] at *
  | cons a as ih =>
    intro l2 h
    cases l2 with
    | nil => simp [chListLt] at h
    | cons b bs =>
      simp only [chListLt, Bool.or_eq_true, Bool.and_eq_true, decide_eq_true_eq] at h ⊢
      rcases h with hab | ⟨hab, hrec⟩
      · simp only [Bool.or_eq_false_iff, Bool.and_eq_false_iff]
        refine ⟨by simp only [decide_eq_false_iff_not]; exact fun hba => absurd hab (lt_asymm hba), ?_⟩
        left
        simp only [decide_eq_false_iff_not]
        exact fun hba => absurd hab (hba ▸ lt_irrefl b)
      · subst hab
        simp only [Bool.or_eq_false_iff, Bool.and_eq_false_iff]
        exact ⟨by simp, Or.inr (ih bs hrec)⟩

lemma chListLt_trans : ∀ l1 l2 l3 : List Char,
    chListLt l1 l2 = true → chListLt l2 l3 = true → chListLt l1 l3 = true := by
  intro l1
  induction l1 with
  | nil =>
    intro l2 l3 h12 h23
    cases l2 with
    | nil => simp [chListLt] at h12
    | cons b bs =>
      cases l3 with
      | nil => simp [chListLt] at h23
      | cons c cs => simp [chListLt]
  | cons a as ih =>
    intro l2 l3 h12 h23
    cases l2 with
    | nil => simp [chListLt] at h12
    | cons b bs =>
      cases l3 with
      | nil => simp [chListLt] at h23
      | cons c cs =>
        simp only [chListLt, Bool.or_eq_true, Bool.and_eq_true,
          decide_eq_true_eq] at h12 h23 ⊢
        rcases h12 with hab | ⟨hab, hr12⟩ <;> rcases h23 with hbc | ⟨hbc, hr23⟩
        · exact Or.inl (lt_trans hab hbc)
        · exact Or.inl (hbc ▸ hab)
        · exact Or.inl (hab ▸ hbc)
        · exact Or.inr ⟨hab.trans hbc, ih bs cs hr12 hr23⟩

lemma chListLt_connex : ∀ l1 l2 : List Char,
    chListLt l1 l2 = false → chListLt l2 l1 = false → l1 = l2 := by
  intro l1
  induction l1 with
  | nil =>
    intro l2 h12 h21
    cases l2 with
    | nil => rfl
    | cons b bs => simp [chListLt] at h12
  | cons a as ih =>
    intro l2 h12 h21
    cases l2 with
    | nil => simp [chListLt] at h21
    | cons b bs =>
      simp only [chListLt, Bool.or_eq_false_iff, Bool.and_eq_false_iff,
        decide_eq_false_iff_not] at h12 h21
      obtain ⟨hab, h12r⟩ := h12
      obtain ⟨hba, h21r⟩ := h21
      have heq : a = b := by
        rcases lt_trichotomy a b with h | h | h
        · exact absurd h hab
        · exact h
        · exact absurd h hba
      subst heq
      rcases h12r with h | h
      · simp at h
      · rcases h21r with h2 | h2
        · simp at h2
        · rw [ih bs h h2]

lemma strLeB_total (s1 s2 : String) : strLeB s1 s2 = true ∨ strLeB s2 s1 = true := by
  unfold strLeB
  cases h12 : chListLt s2.data s1.data
  · simp
  · cases h21 : chListLt s1.data s2.data
    · simp
    · have hc := chListLt_asymm _ _ h12
      rw [hc] at h21
      cases h21

lemma strLeB_trans {s1 s2 s3 : String} (h12 : strLeB s1 s2 = true)
    (h23 : strLeB s2 s3 = true) : strLeB s1 s3 = true := by
  unfold strLeB at *
  cases h31 : chListLt s3.data s1.data
  · simp
  · exfalso
    have h21 : chListLt s2.data s1.data = false := by
      cases hv : chListLt s2.data s1.data
      · rfl
      · rw [hv] at h12
        cases h12
    have h32 : chListLt s3.data s2.data = false := by
      cases hv : chListLt s3.data s2.data
      · rfl
      · rw [hv] at h23
        cases h23
    cases hx : chListLt s2.data s3.data
    · have hcx : s2.data = s3.data := chListLt_connex _ _ hx h32
      rw [← hcx] at h31
      rw [h31] at h21
      cases h21
    · have hcx := chListLt_trans _ _ _ hx h31
      rw [hcx] at h21
      cases h21

/-! ### fillRow and keepLastByKey -/

lemma fillRow_dateTime (r : Row) : (fillRow r).dateTime = r.dateTime := by
  unfold fillRow
  split
  · cases to_datetime r.dateTime <;> rfl
  · rfl

lemma fillRow_price (r : Row) : (fillRow r).price = r.price := by
  unfold fillRow
  split
  · cases to_datetime r.dateTime <;> rfl
  · rfl

lemma fillRow_of_unparseable {r : Row} (h : to_datetime r.dateTime = none) :
    fillRow r = r := by
  unfold fillRow
  split
  · rw [h]
  · rfl

lemma keepLastByKey_sublist (key : Row → String) :
    ∀ l : List Row, (keepLastByKey key l).Sublist l := by
  intro l
  induction l with
  | nil => simp [keepLastByKey]
  | cons r rest ih =>
    unfold keepLastByKey
    split
    · exact ih.cons r
    · exact ih.cons₂ r

lemma keepLastByKey_filter (key : Row → String) (k : String) :
    ∀ l : List Row,
      (keepLastByKey key l).filter (fun r => key r = k) =
        ((l.filter fun r => key r = k).getLast?).toList := by
  intro l
  induction l with
  | nil => simp [keepLastByKey]
  | cons r rest ih =>
    unfold keepLastByKey
    split
    next hdup =>
      rw [ih]
      by_cases hk : key r = k
      · have hne : rest.filter (fun r => key r = k) ≠ [] := by
          rw [List.any_eq_true] at hdup
          obtain ⟨x, hx, hxk⟩ := hdup
          simp only [decide_eq_true_eq] at hxk
          intro hnil
          rw [List.filter_eq_nil_iff] at hnil
          exact hnil x hx (by simp [hxk, hk])
        rw [List.filter_cons_of_pos (by simp [hk])]
        obtain ⟨c, cs, hcs⟩ := List.exists_cons_of_ne_nil hne
        rw [hcs, List.getLast?_cons_cons]
      · rw [List.filter_cons_of_neg (by simp [hk])]
    next hdup =>
      by_cases hk : key r = k
      · have hrest : rest.filter (fun r => key r = k) = [] := by
          rw [List.filter_eq_nil_iff]
          intro x hx
          simp only [decide_eq_true_eq]
          intro hxk
          rw [List.any_eq_true] at hdup
          exact hdup ⟨x, hx, by simp [hxk, hk]⟩
        rw [List.filter_cons_of_pos (by simp [hk]),
          List.filter_cons_of_pos (by simp [hk]), ih, hrest]
        simp
      · rw [List.filter_cons_of_neg (by simp [hk]),
          List.filter_cons_of_neg (by simp [hk]), ih]

lemma keepLastByKey_keys_nodup (key : Row → String) :
    ∀ l : List Row, ((keepLastByKey key l).map key).Nodup := by
  intro l
  induction l with
  | nil => simp [keepLastByKey]
  | cons r rest ih =>
    unfold keepLastByKey
    split
    next hdup => exact ih
    next hdup =>
      simp only [List.map_cons]
      refine List.Nodup.cons ?_ ih
      intro hmem
      rw [List.mem_map] at hmem
      obtain ⟨x, hx, hxk⟩ := hmem
      have hxrest : x ∈ rest := (keepLastByKey_sublist key rest).mem hx
      rw [List.any_eq_true] at hdup
      exact hdup ⟨x, hxrest, by simp [hxk]⟩

/-! ### Structure of `_merge_history` -/

/-- The sort relation `_merge_history` uses: Python `<=` on the `dateTime`
strings. -/
def rowLe (a b : Row) : Prop := strLeB a.dateTime b.dateTime = true

instance : DecidableRel rowLe := fun a b => by
  unfold rowLe
  infer_instance

instance : IsTotal Row rowLe :=
  ⟨fun a b => strLeB_total a.dateTime b.dateTime⟩

instance : IsTrans Row rowLe :=
  ⟨fun _ _ _ hab hbc => strLeB_trans hab hbc⟩

lemma _merge_history_eq (old_df new_df : List Row) :
    _merge_history old_df new_df =
      if (old_df ++ new_df).isEmpty then []
      else (List.insertionSort rowLe
        (keepLastByKey (fun r => r.dateTime) (old_df ++ new_df))).map fillRow := by
  unfold _merge_history rowLe
  by_cases h1 : old_df.isEmpty <;> by_cases h2 : new_df.isEmpty <;>
    rw [List.isEmpty_iff] at * <;> simp [h1, h2]

/-- What the deduplication of `_merge_history` leaves for one `dateTime`
key: exactly the last matching row of the concatenation (then backfilled),
or nothing when no row matches. -/
lemma merge_filter_key (old_df new_df : List Row) (ts : String) :
    (_merge_history old_df new_df).filter (fun r => r.dateTime = ts) =
      ((((old_df ++ new_df).filter fun r => r.dateTime = ts).getLast?).toList).map
        fillRow := by
  rw [_merge_history_eq]
  split
  next hemp =>
    rw [List.isEmpty_iff] at hemp
    rw [hemp]
    simp
  next hemp =>
    have hcomp : (fun r => decide ((fillRow r).dateTime = ts)) =
        (fun r => decide (r.dateTime = ts)) := by
      funext r
      rw [fillRow_dateTime]
    have hcomp2 : ((fun r => decide (r.dateTime = ts)) ∘ fillRow) =
        (fun r => decide (r.dateTime = ts)) := by
      funext r
      simp only [Function.comp_apply, fillRow_dateTime]
    rw [List.filter_map, hcomp2]
    have hperm : ((List.insertionSort rowLe
          (keepLastByKey (fun r => r.dateTime) (old_df ++ new_df))).filter
        (fun r => decide (r.dateTime = ts))).Perm
        ((keepLastByKey (fun r => r.dateTime) (old_df ++ new_df)).filter
          (fun r => decide (r.dateTime = ts))) :=
      (List.perm_insertionSort rowLe _).filter _
    rw [keepLastByKey_filter] at hperm
    cases hl : ((old_df ++ new_df).filter fun r => r.dateTime = ts).getLast? with
    | none =>
      rw [hl] at hperm
      simp only [Option.toList] at hperm ⊢
      rw [List.perm_nil] at hperm
      rw [hperm]
    | some a =>
      rw [hl] at hperm
      simp only [Option.toList] at hperm ⊢
      rw [List.perm_singleton] at hperm
      rw [hperm]

/-- The merged frame is sorted ascending in Python string order on the
`dateTime` column. -/
lemma merge_sorted_by_key (old_df new_df : List Row) :
    (_merge_history old_df new_df).Pairwise
      (fun a b => strLeB a.dateTime b.dateTime = true) := by
  rw [_merge_history_eq]
  split
  · exact List.Pairwise.nil
  · have hs : List.Sorted rowLe (List.insertionSort rowLe
        (keepLastByKey (fun r => r.dateTime) (old_df ++ new_df))) :=
      List.sorted_insertionSort rowLe _
    rw [List.pairwise_map]
    refine hs.imp ?_
    intro a b hab
    unfold rowLe at hab
    rw [fillRow_dateTime, fillRow_dateTime]
    exact hab

/-- The merged frame has no duplicate `dateTime` keys. -/
lemma merge_keys_nodup (old_df new_df : List Row) :
    ((_merge_history old_df new_df).map (fun r => r.dateTime)).Nodup := by
  rw [_merge_history_eq]
  split
  · simp
  · rw [List.map_map]
    have he : ((fun r => r.dateTime) ∘ fillRow) = (fun r : Row => r.dateTime) := by
      funext r
      simp only [Function.comp_apply, fillRow_dateTime]
    rw [he]
    have hperm : ((List.insertionSort rowLe
          (keepLastByKey (fun r => r.dateTime) (old_df ++ new_df))).map
        (fun r => r.dateTime)).Perm
        ((keepLastByKey (fun r => r.dateTime) (old_df ++ new_df)).map
          (fun r => r.dateTime)) :=
      (List.perm_insertionSort rowLe _).map _
    exact hperm.symm.nodup (keepLastByKey_keys_nodup _ _)

/-! ### Structure of `trim_history_days` -/

lemma mem_valid_rows {df : List Row} {r : Row} {n : Nat} :
    (r, n) ∈ valid_rows df ↔
      r ∈ df ∧ ∃ t, to_datetime r.dateTime = some t ∧ n = secOfDT t := by
  unfold valid_rows
  rw [List.mem_filterMap]
  constructor
  · rintro ⟨a, ha, hfa⟩
    cases hp : to_datetime a.dateTime with
    | none => rw [hp] at hfa; cases hfa
    | some t =>
      rw [hp] at hfa
      simp only [Option.map_some'] at hfa
      have hpair : (a, secOfDT t) = (r, n) := by injection hfa
      have ha2 : a = r := congrArg Prod.fst hpair
      have hn : secOfDT t = n := congrArg Prod.snd hpair
      subst ha2
      subst hn
      exact ⟨ha, t, hp, rfl⟩
  · rintro ⟨hr, t, hp, rfl⟩
    exact ⟨r, hr, by rw [hp]; rfl⟩

lemma le_foldl_max (l : List Nat) (a : Nat) :
    (∀ x ∈ l, x ≤ l.foldl max a) ∧ a ≤ l.foldl max a := by
  induction l generalizing a with
  | nil => simp
  | cons b bs ih =>
    refine ⟨?_, ?_⟩
    · intro x hx
      rcases List.mem_cons.mp hx with rfl | hxs
      · calc x ≤ max a x := le_max_right a x
          _ ≤ bs.foldl max (max a x) := (ih (max a x)).2
          _ = (x :: bs).foldl max a := rfl
      · exact (ih (max a b)).1 x hxs
    · calc a ≤ max a b := le_max_left a b
        _ ≤ bs.foldl max (max a b) := (ih (max a b)).2
        _ = (b :: bs).foldl max a := rfl

lemma latest_ts_ge {df : List Row} {r : Row} {n : Nat}
    (h : (r, n) ∈ valid_rows df) : n ≤ latest_ts df := by
  unfold latest_ts
  exact (le_foldl_max _ 0).1 n (List.mem_map.mpr ⟨(r, n), h, rfl⟩)

/-- Membership in the trimmed frame: exactly the parseable rows at or
after the cutoff. -/
lemma trim_mem_iff (df : List Row) (keep_days : Nat) (r : Row) :
    r ∈ trim_history_days df keep_days ↔
      r ∈ df ∧ ∃ t, to_datetime r.dateTime = some t ∧
        (latest_ts df : Int) - keep_days * 86400 ≤ (secOfDT t : Int) := by
  have hkey : trim_history_days df keep_days =
      if df.isEmpty then df
      else if (valid_rows df).isEmpty then []
      else ((List.insertionSort (fun a b : Row × Nat => a.2 ≤ b.2)
        ((valid_rows df).filter fun p =>
          decide ((latest_ts df : Int) - keep_days * 86400 ≤ (p.2 : Int)))).map
        fun p => p.1) := rfl
  rw [hkey]
  split
  next hemp =>
    rw [List.isEmpty_iff] at hemp
    subst hemp
    simp
  next hemp =>
    split
    next hvemp =>
      rw [List.isEmpty_iff] at hvemp
      simp only [List.not_mem_nil, false_iff]
      rintro ⟨hr, t, hp, hcut⟩
      have : (r, secOfDT t) ∈ valid_rows df := mem_valid_rows.mpr ⟨hr, t, hp, rfl⟩
      rw [hvemp] at this
      cases this
    next hvemp =>
      rw [List.mem_map]
      constructor
      · rintro ⟨p, hp, rfl⟩
        have hp2 : p ∈ (valid_rows df).filter
            (fun p => decide ((latest_ts df : Int) - keep_days * 86400 ≤ (p.2 : Int))) :=
          ((List.perm_insertionSort _ _).mem_iff).mp hp
        rw [List.mem_filter] at hp2
        obtain ⟨hpv, hpc⟩ := hp2
        obtain ⟨hr, t, hpt, hn⟩ := mem_valid_rows.mp (by
          show (p.1, p.2) ∈ valid_rows df
          simpa using hpv)
        refine ⟨hr, t, hpt, ?_⟩
        rw [decide_eq_true_eq] at hpc
        rw [← hn]
        exact hpc
      · rintro ⟨hr, t, hpt, hcut⟩
        refine ⟨(r, secOfDT t), ?_, rfl⟩
        rw [(List.perm_insertionSort (fun a b : Row × Nat => a.2 ≤ b.2) _).mem_iff]
        rw [List.mem_filter]
        exact ⟨mem_valid_rows.mpr ⟨hr, t, hpt, rfl⟩, by simpa using hcut⟩

/-! ### Concrete sample rows -/

/-- A stored row at 2025-06-01T10:00:00 with price 1000. -/
def rowJun1p1000 : Row :=
  { mapName := "미나르숲", dateTime := "2025-06-01T10:00:00", date := "2025-06-01",
    time := "10:00", weekday := "일", price := some 1000, tradeCount := some 10,
    timeUnit := some "HOUR" }

/-- The same timestamp fetched again with price 1200. -/
def rowJun1p1200 : Row := { rowJun1p1000 with price := some 1200 }

/-- A row one day later. -/
def rowJun2 : Row :=
  { rowJun1p1000 with
    dateTime := "2025-06-02T10:00:00"
    date := "2025-06-02"
    weekday := "월"
    price := some 1100 }

/-- A row whose `dateTime` does not parse. -/
def rowBadDate : Row := { rowJun1p1000 with dateTime := "not-a-date" }

/-! ### Claims -/

/-- C1: for every pair of history record sets, `_merge_history`
concatenates them, deduplicates by the `dateTime` key (no key occurs
twice), keeps the freshly fetched record when both sets carry a record
with the same key, and returns the result sorted ascending by the
`dateTime` key — an order that coincides with timestamp order on the
canonical `strftime` rendering the pipeline stores; in particular, when
the stored set has a record at a timestamp with price 1000 and the fetch
returns the same timestamp with price 1200, exactly one record remains
for that timestamp, carrying the new price. -/
theorem C1_merge_dedup_new_wins (old_df new_df : List Row) :
    (((_merge_history old_df new_df).map fun r => r.dateTime).Nodup) ∧
    ((_merge_history old_df new_df).Pairwise fun a b =>
      strLeB a.dateTime b.dateTime = true) ∧
    ((_merge_history old_df new_df).Pairwise fun a b =>
      ∀ t1 t2, validDT t1 = true → validDT t2 = true →
        a.dateTime = renderDT t1 → b.dateTime = renderDT t2 →
        secOfDT t1 ≤ secOfDT t2) ∧
    (∀ ts rOld rNew, rOld ∈ old_df → rOld.dateTime = ts →
      (new_df.filter fun r => r.dateTime = ts) = [rNew] →
      ((_merge_history old_df new_df).filter fun r => r.dateTime = ts)
          = [fillRow rNew] ∧
        (fillRow rNew).price = rNew.price) := by
  refine ⟨merge_keys_nodup old_df new_df, merge_sorted_by_key old_df new_df, ?_, ?_⟩
  · refine (merge_sorted_by_key old_df new_df).imp ?_
    intro a b hab t1 t2 hv1 hv2 ha hb
    rw [ha, hb] at hab
    exact secOfDT_le_of_strLeB hv1 hv2 hab
  · intro ts rOld rNew hOld hOldTs hNewFil
    have hm := merge_filter_key old_df new_df ts
    rw [List.filter_append, hNewFil] at hm
    constructor
    · rw [hm, List.getLast?_append]
      rfl
    · exact fillRow_price rNew

/-- C1 witness: the merge scenario at 2025-06-01T10:00:00 with prices
1000 (stored) and 1200 (fetched): exactly one record remains, with price
1200. -/
theorem C1_witness :
    ((_merge_history [rowJun1p1000] [rowJun1p1200]).filter
        fun r => r.dateTime = "2025-06-01T10:00:00") = [rowJun1p1200] ∧
    rowJun1p1200.price = some 1200 := by
  have h := (C1_merge_dedup_new_wins [rowJun1p1000] [rowJun1p1200]).2.2.2
    "2025-06-01T10:00:00" rowJun1p1000 rowJun1p1200 (by simp) rfl (by decide)
  have hfill : fillRow rowJun1p1200 = rowJun1p1200 := by decide
  rw [hfill] at h
  exact ⟨h.1, rfl⟩

/-- C2: `trim_history_days` keeps a (timestamped) record exactly when its
timestamp is at or after `cutoff = latest - keep_days` days; hence any two
retained records are at most `keep_days` days apart, and a record carrying
the maximum timestamp is always retained. -/
theorem C2_trim_cutoff (df : List Row) (keep_days : Nat) :
    (∀ r t, r ∈ df → to_datetime r.dateTime = some t →
      (r ∈ trim_history_days df keep_days ↔
        (latest_ts df : Int) - keep_days * 86400 ≤ (secOfDT t : Int))) ∧
    (∀ r1 r2 t1 t2, r1 ∈ trim_history_days df keep_days →
      r2 ∈ trim_history_days df keep_days →
      to_datetime r1.dateTime = some t1 → to_datetime r2.dateTime = some t2 →
      (secOfDT t1 : Int) - (secOfDT t2 : Int) ≤ keep_days * 86400) ∧
    (∀ r t, r ∈ df → to_datetime r.dateTime = some t →
      secOfDT t = latest_ts df → r ∈ trim_history_days df keep_days) := by
  refine ⟨?_, ?_, ?_⟩
  · intro r t hr hp
    rw [trim_mem_iff]
    constructor
    · rintro ⟨_, t2, hp2, hcut⟩
      rw [hp] at hp2
      rw [Option.some.inj hp2]
      exact hcut
    · intro hcut
      exact ⟨hr, t, hp, hcut⟩
  · intro r1 r2 t1 t2 h1 h2 hp1 hp2
    rw [trim_mem_iff] at h1 h2
    obtain ⟨hr1, t1b, hp1b, hc1⟩ := h1
    obtain ⟨hr2, t2b, hp2b, hc2⟩ := h2
    rw [hp1] at hp1b
    rw [hp2] at hp2b
    have ht1 : t1 = t1b := Option.some.inj hp1b
    have ht2 : t2 = t2b := Option.some.inj hp2b
    subst ht1
    subst ht2
    have hle : secOfDT t1 ≤ latest_ts df :=
      latest_ts_ge (mem_valid_rows.mpr ⟨hr1, t1, hp1, rfl⟩)
    omega
  · intro r t hr hp hmax
    rw [trim_mem_iff]
    exact ⟨hr, t, hp, by omega⟩

/-- C2 witness: a two-row history trimmed with `keep_days = 0`: the newest
row (2025-06-02) is retained and the older row (2025-06-01) is discarded. -/
theorem C2_witness :
    rowJun2 ∈ trim_history_days [rowJun1p1000, rowJun2] 0 ∧
    rowJun1p1000 ∉ trim_history_days [rowJun1p1000, rowJun2] 0 := by
  have h := C2_trim_cutoff [rowJun1p1000, rowJun2] 0
  constructor
  · exact (h.1 rowJun2 ⟨2025, 6, 2, 10, 0, 0⟩ (by simp) (by decide)).mpr (by decide)
  · intro hmem
    have hc := (h.1 rowJun1p1000 ⟨2025, 6, 1, 10, 0, 0⟩ (by simp) (by decide)).mp hmem
    exact absurd hc (by decide)

/-- C10: every row of a trimmed frame has a parseable `dateTime` (so trim
silently drops every unparseable row), while `_merge_history` preserves a
row whose key is unique in the concatenation — and leaves an unparseable
row textually unchanged — so a malformed row that survives merge is lost
by the trim step that follows it in `main`. -/
theorem C10_trim_drops_unparseable :
    (∀ df keep_days r, r ∈ trim_history_days df keep_days →
      (to_datetime r.dateTime).isSome = true) ∧
    (∀ old_df new_df r, r ∈ old_df ++ new_df →
      ((old_df ++ new_df).filter fun x => x.dateTime = r.dateTime) = [r] →
      fillRow r ∈ _merge_history old_df new_df) ∧
    (∀ r, to_datetime r.dateTime = none → fillRow r = r) := by
  refine ⟨?_, ?_, fun r h => fillRow_of_unparseable h⟩
  · intro df keep_days r hr
    rw [trim_mem_iff] at hr
    obtain ⟨_, t, hp, _⟩ := hr
    rw [hp]
    rfl
  · intro old_df new_df r hr hfil
    have hm := merge_filter_key old_df new_df r.dateTime
    rw [hfil] at hm
    have hm2 : (_merge_history old_df new_df).filter
        (fun x => x.dateTime = r.dateTime) = [fillRow r] := by
      rw [hm]
      rfl
    have hmem : fillRow r ∈ (_merge_history old_df new_df).filter
        (fun x => x.dateTime = r.dateTime) := by
      rw [hm2]
      exact List.mem_singleton.mpr rfl
    exact List.mem_of_mem_filter hmem

/-- C10 witness: the row with `dateTime = "not-a-date"` survives the merge
with a fetched frame, and the subsequent trim removes it. -/
theorem C10_witness :
    fillRow rowBadDate ∈ _merge_history [rowBadDate] [rowJun1p1000] ∧
    fillRow rowBadDate = rowBadDate ∧
    rowBadDate ∉ trim_history_days (_merge_history [rowBadDate] [rowJun1p1000]) 180 := by
  have h := C10_trim_drops_unparseable
  refine ⟨h.2.1 [rowBadDate] [rowJun1p1000] rowBadDate (by simp) (by decide),
    h.2.2 rowBadDate (by decide), ?_⟩
  intro hmem
  exact absurd (h.1 _ 180 rowBadDate hmem) (by decide)

/-- The filesystem state of an existing history file whose content makes
both `pd.read_csv` attempts raise. -/
def corruptFile : FileState :=
  { fileExists := true, readUtf8 := CsvRead.raise, readUtf8Sig := CsvRead.raise }

/-- C3 counterexample: for an existing history file whose content makes
both read attempts raise, `read_history` propagates the error instead of
returning the empty, well-shaped history the claim promises. -/
theorem C3_counterexample : read_history corruptFile = Except.error () := rfl

/-- C3 (amended): `read_history` returns the empty well-shaped history
only for a missing file; for an existing file it retries with utf-8-sig
after a utf-8 failure, and when both reads raise the error propagates to
the caller (build.py line 247 calls it outside the `try` block), aborting
the run rather than recovering. -/
theorem C3_read_history_amended (fs : FileState) :
    (fs.fileExists = false → read_history fs = Except.ok emptyHistory) ∧
    (fs.fileExists = true → fs.readUtf8 = CsvRead.raise →
      fs.readUtf8Sig = CsvRead.raise → read_history fs = Except.error ()) ∧
    (∀ df, fs.fileExists = true → fs.readUtf8 = CsvRead.ok df →
      read_history fs = Except.ok df) ∧
    (∀ df, fs.fileExists = true → fs.readUtf8 = CsvRead.raise →
      fs.readUtf8Sig = CsvRead.ok df → read_history fs = Except.ok df) := by
  obtain ⟨ex, r1, r2⟩ := fs
  cases ex <;> cases r1 <;> cases r2 <;>
    simp [read_history]

/-- C3 witness: the amended behaviour at concrete file states — a missing
file yields the empty history, and a utf-8 failure with a successful
utf-8-sig retry yields the retried table. -/
theorem C3_witness :
    read_history ⟨false, CsvRead.raise, CsvRead.raise⟩ = Except.ok emptyHistory ∧
    read_history ⟨true, CsvRead.raise, CsvRead.ok [rowJun1p1000]⟩
      = Except.ok [rowJun1p1000] := by
  exact ⟨(C3_read_history_amended _).1 rfl,
    (C3_read_history_amended _).2.2.2 [rowJun1p1000] rfl rfl rfl⟩

/-- C4: `parse_dt` always returns a timezone-naive value; an offset-free
input is returned unchanged (assumed already local), and an
offset-carrying input (including `Z`, which reaches `fromisoformat` as
`+00:00`) is converted to the fixed target zone Asia/Seoul (UTC+9): the
result is the denoted UTC instant shifted by `KST_OFFSET`. -/
theorem C4_parse_dt_normalizes (d : PyDatetime) :
    (parse_dt d).off = none ∧
    (d.off = none → (parse_dt d).clock = d.clock) ∧
    (∀ o, d.off = some o →
      (parse_dt d).clock = utcInstant d.clock o + KST_OFFSET) := by
  obtain ⟨c, off⟩ := d
  cases off with
  | none => simp [parse_dt, replaceTz, astimezone, utcInstant]
  | some o =>
    refine ⟨rfl, ?_, ?_⟩
    · intro h
      cases h
    intro o2 ho
    have : o = o2 := Option.some.inj ho
    subst this
    simp [parse_dt, replaceTz, astimezone, utcInstant, KST_OFFSET]

/-- C4 witness: a naive 10:00:00 clock value is unchanged, and the same
clock with a `+00:00` offset (a `Z` input) becomes 19:00:00 KST. -/
theorem C4_witness :
    (parse_dt { clock := 36000, off := none }).off = none ∧
    (parse_dt { clock := 36000, off := none }).clock = 36000 ∧
    (parse_dt { clock := 36000, off := some 0 }).clock = 36000 + KST_OFFSET := by
  refine ⟨(C4_parse_dt_normalizes _).1, (C4_parse_dt_normalizes _).2.1 rfl, ?_⟩
  have h := (C4_parse_dt_normalizes { clock := 36000, off := some 0 }).2.2 0 rfl
  rw [h]
  rfl

/-- C5 counterexample: the ingestion step stores
`dt.strftime("%H:%M")`, so an input timestamp 2025-06-01T10:30:00 is
stored with `time = "10:30"`, not the hour-truncated `"10:00"` the claim
states. -/
theorem C5_counterexample :
    collect_time_field ⟨2025, 6, 1, 10, 30, 0⟩ = "10:30" ∧
    collect_time_field ⟨2025, 6, 1, 10, 30, 0⟩ ≠ "10:00" := by
  constructor <;> decide

/-- C5 (amended): the stored `time` field is the full `HH:MM` of the
parsed timestamp — minutes are preserved, not truncated — so it agrees
with the spec's hour-truncated `HH:00` exactly when the input's minutes
component is zero. -/
theorem C5_time_field_amended (dt : DT) (hm : dt.minute < 60) :
    collect_time_field dt = spec_time_field dt ↔ dt.minute = 0 := by
  unfold collect_time_field renderTime spec_time_field
  constructor
  · intro h
    have hl : two_digit dt.hour ++ ':' :: two_digit dt.minute =
        two_digit dt.hour ++ [':', '0', '0'] := by
      have h2 := congrArg String.data h
      simpa using h2
    have hl2 : ':' :: two_digit dt.minute = ([':', '0', '0'] : List Char) :=
      List.append_cancel_left hl
    have hl3 : two_digit dt.minute = (['0', '0'] : List Char) := by
      simpa using hl2
    simp only [two_digit, List.cons.injEq, and_true] at hl3
    obtain ⟨e1, e2⟩ := hl3
    rw [show ('0' : Char) = dChar 0 from by decide] at e1 e2
    rw [dChar_eq_iff] at e1 e2
    omega
  · intro h
    rw [show two_digit dt.minute = (['0', '0'] : List Char) from by
      rw [h]; decide]

/-- C5 witness: the amended equivalence applied at 10:30 (disagrees with
the truncated form) and at 10:00 (agrees). -/
theorem C5_witness :
    collect_time_field ⟨2025, 6, 1, 10, 30, 0⟩ ≠ spec_time_field ⟨2025, 6, 1, 10, 30, 0⟩ ∧
    collect_time_field ⟨2025, 6, 1, 10, 0, 0⟩ = spec_time_field ⟨2025, 6, 1, 10, 0, 0⟩ := by
  constructor
  · intro h
    have hc := (C5_time_field_amended ⟨2025, 6, 1, 10, 30, 0⟩ (by decide)).mp h
    exact absurd hc (by decide)
  · exact (C5_time_field_amended ⟨2025, 6, 1, 10, 0, 0⟩ (by decide)).mpr rfl

/-- C6 counterexample: the deduplication of `_merge_history` is positional
(`keep="last"` on the concatenation), not recency-aware: with a stored
record A (price 1000) and a fresh record B (price 1200) sharing a
timestamp, `merge(A, B)` keeps B but `merge(B, A)` keeps A — the claim
that B wins in both orders fails on the code. -/
theorem C6_counterexample :
    _merge_history [rowJun1p1000] [rowJun1p1200] = [rowJun1p1200] ∧
    _merge_history [rowJun1p1200] [rowJun1p1000] = [rowJun1p1000] ∧
    rowJun1p1000.price = some 1000 ∧ rowJun1p1200.price = some 1200 ∧
    (some (1000 : ℚ) : Option ℚ) ≠ some 1200 := by
  refine ⟨by decide, by decide, rfl, rfl, by norm_num⟩

/-- C6 (amended): for two record sets sharing a timestamp key, the record
from the second argument of `_merge_history` wins, whichever set it is:
the freshly fetched record wins only because the orchestrator passes the
fetched frame second. -/
theorem C6_second_argument_wins (dfX dfY : List Row) (ts : String) (rX rY : Row)
    (hX : (dfX.filter fun r => r.dateTime = ts) = [rX])
    (hY : (dfY.filter fun r => r.dateTime = ts) = [rY]) :
    ((_merge_history dfX dfY).filter fun r => r.dateTime = ts) = [fillRow rY] ∧
    ((_merge_history dfY dfX).filter fun r => r.dateTime = ts) = [fillRow rX] := by
  constructor
  · have hm := merge_filter_key dfX dfY ts
    rw [List.filter_append, hX, hY] at hm
    rw [hm]
    rfl
  · have hm := merge_filter_key dfY dfX ts
    rw [List.filter_append, hX, hY] at hm
    rw [hm]
    rfl

/-- C6 witness: the amended rule at the concrete pair of records with
prices 1000 and 1200. -/
theorem C6_witness :
    ((_merge_history [rowJun1p1000] [rowJun1p1200]).filter
      fun r => r.dateTime = "2025-06-01T10:00:00") = [fillRow rowJun1p1200] ∧
    ((_merge_history [rowJun1p1200] [rowJun1p1000]).filter
      fun r => r.dateTime = "2025-06-01T10:00:00") = [fillRow rowJun1p1000] :=
  C6_second_argument_wins [rowJun1p1000] [rowJun1p1200] "2025-06-01T10:00:00"
    rowJun1p1000 rowJun1p1200 (by decide) (by decide)

/-- C7: every pack `build_daily_series` produces has `hours`, `values` and
`hoverDetail` of length exactly 24, and its hour axis is exactly the fixed
display order 01:00 … 23:00 followed by 00:00. -/
theorem C7_hour_slot_completeness (df : List Row) (p : DailySeriesPack)
    (hp : p ∈ build_daily_series df) :
    p.x = HOUR_ORDER ∧
    p.x = ["01:00", "02:00", "03:00", "04:00", "05:00", "06:00", "07:00",
      "08:00", "09:00", "10:00", "11:00", "12:00", "13:00", "14:00", "15:00",
      "16:00", "17:00", "18:00", "19:00", "20:00", "21:00", "22:00", "23:00",
      "00:00"] ∧
    p.x.length = 24 ∧ p.y.length = 24 ∧ p.hover.length = 24 := by
  have hkey : build_daily_series df =
      if ((df.filterMap fun r => (to_datetime r.dateTime).map fun t => (r, t)).isEmpty)
        then []
      else (List.insertionSort (fun a b => strLeB a b = true)
        (((df.filterMap fun r => (to_datetime r.dateTime).map fun t => (r, t)).map
          fun q => renderDate q.2).dedup)).map
        (fun d => packForDate d ((df.filterMap fun r =>
          (to_datetime r.dateTime).map fun t => (r, t)).filter
          fun q => renderDate q.2 = d)) := rfl
  rw [hkey] at hp
  split at hp
  next => cases hp
  next =>
    rw [List.mem_map] at hp
    obtain ⟨d, hd, rfl⟩ := hp
    refine ⟨rfl, ?_, ?_, ?_, ?_⟩
    · show HOUR_ORDER = _
      decide
    · show HOUR_ORDER.length = 24
      decide
    · show (HOUR_ORDER.map _).length = 24
      rw [List.length_map]
      decide
    · show (HOUR_ORDER.map _).length = 24
      rw [List.length_map]
      decide

/-- C7 witness: the single-row history produces exactly one pack, and that
pack satisfies the hour-slot contract. -/
theorem C7_witness :
    (build_daily_series [rowJun1p1000]).length = 1 ∧
    (build_daily_series [rowJun1p1000]).all
      (fun p => decide (p.x = HOUR_ORDER) && decide (p.y.length = 24) &&
        decide (p.hover.length = 24)) = true := by
  constructor
  · decide
  · rw [List.all_eq_true]
    intro p hp
    have h := C7_hour_slot_completeness [rowJun1p1000] p hp
    simp only [Bool.and_eq_true, decide_eq_true_eq]
    exact ⟨⟨h.1, h.2.2.2.1⟩, h.2.2.2.2⟩

/-- C8: the price formatter's boundary behaviour: 99,999,999 renders in
the 10,000-unit form, 100,000,000 renders in the 100,000,000-unit form as
a whole number with no decimal, 150,000,000 renders with exactly one
decimal place, `None` and `NaN` render the placeholder, and any negative
input is formatted as its absolute value. -/
theorem C8_format_price_boundaries :
    _format_price_kr (PyNum.pnum 99999999) = "10000만" ∧
    _format_price_kr (PyNum.pnum 100000000) = "1억" ∧
    _format_price_kr (PyNum.pnum 150000000) = "1.5억" ∧
    _format_price_kr PyNum.pnone = "-" ∧
    _format_price_kr PyNum.pnan = "-" ∧
    (∀ q : ℚ, _format_price_kr (PyNum.pnum q) = _format_price_kr (PyNum.pnum |q|)) := by
  refine ⟨?_, ?_, ?_, rfl, rfl, ?_⟩
  · norm_num [_format_price_kr, roundHalfEven]; decide
  · norm_num [_format_price_kr, round1, roundHalfEven]; decide
  · norm_num [_format_price_kr, reprOneDecimal, round1, roundHalfEven]
    rw [if_neg (by rw [abs_of_pos (by norm_num : (0:ℚ) < 1/2)]; norm_num)]
    decide
  · intro q
    have habs : (if q < 0 then -q else q) = |q| := by
      split
      next h => exact (abs_of_neg h).symm
      next h => exact (abs_of_nonneg (not_lt.mp h)).symm
    have habs2 : (if |q| < 0 then -|q| else |q|) = |q| :=
      if_neg (not_lt.mpr (abs_nonneg q))
    simp only [_format_price_kr, habs, habs2]

/-- The body-shape handling of api.py `fetch_period` never fails: this
lemma characterises `firstListUnder` over any key list. -/
lemma firstListUnder_spec (kvs : List (String × Json)) : ∀ ks : List String,
    (∀ l, firstListUnder kvs ks = some l →
      ∃ k ∈ ks, dictLookup kvs k = some (Json.list l)) ∧
    (firstListUnder kvs ks = none →
      ∀ k ∈ ks, ∀ l, dictLookup kvs k ≠ some (Json.list l)) := by
  intro ks
  induction ks with
  | nil => simp [firstListUnder]
  | cons k ks ih =>
    constructor
    · intro l hl
      unfold firstListUnder at hl
      split at hl
      next l0 heq =>
        have : l0 = l := Option.some.inj hl
        subst this
        exact ⟨k, List.mem_cons_self k ks, heq⟩
      next heq =>
        obtain ⟨k2, hk2, hlook⟩ := ih.1 l hl
        exact ⟨k2, List.mem_cons_of_mem k hk2, hlook⟩
    · intro hnone k2 hk2 l hlook
      unfold firstListUnder at hnone
      split at hnone
      next l0 heq => cases hnone
      next heq =>
        rcases List.mem_cons.mp hk2 with rfl | hk2tail
        · exact heq l hlook
        · exact ih.2 hnone k2 hk2tail l hlook

/-- C9: the fetcher's body-shape handling is total: a bare JSON list is
returned as-is; an object holding a list under one of the known envelope
keys (`data`, `items`, `result`, `content`) yields that wrapped list; and
every other body shape yields the empty list rather than an error. -/
theorem C9_fetch_shape_tolerance :
    (∀ xs : List Json, fetch_period_shape (Json.list xs) = xs) ∧
    (∀ kvs : List (String × Json),
      (∃ k ∈ envelopeKeys, ∃ l, dictLookup kvs k = some (Json.list l)) →
      ∃ k ∈ envelopeKeys, ∃ l, dictLookup kvs k = some (Json.list l) ∧
        fetch_period_shape (Json.obj kvs) = l) ∧
    (∀ kvs : List (String × Json),
      (∀ k ∈ envelopeKeys, ∀ l, dictLookup kvs k ≠ some (Json.list l)) →
      fetch_period_shape (Json.obj kvs) = []) ∧
    (∀ s, fetch_period_shape (Json.str s) = []) ∧
    (∀ q, fetch_period_shape (Json.num q) = []) ∧
    (∀ b, fetch_period_shape (Json.bool b) = []) ∧
    fetch_period_shape Json.null = [] := by
  refine ⟨fun xs => rfl, ?_, ?_, fun s => rfl, fun q => rfl, fun b => rfl, rfl⟩
  · intro kvs hex
    cases hfl : firstListUnder kvs envelopeKeys with
    | none =>
      obtain ⟨k, hk, l, hlook⟩ := hex
      exact absurd hlook ((firstListUnder_spec kvs envelopeKeys).2 hfl k hk l)
    | some l =>
      obtain ⟨k, hk, hlook⟩ := (firstListUnder_spec kvs envelopeKeys).1 l hfl
      refine ⟨k, hk, l, hlook, ?_⟩
      show (firstListUnder kvs envelopeKeys).getD [] = l
      rw [hfl]
      rfl
  · intro kvs hnone
    cases hfl : firstListUnder kvs envelopeKeys with
    | none =>
      show (firstListUnder kvs envelopeKeys).getD [] = []
      rw [hfl]
      rfl
    | some l =>
      obtain ⟨k, hk, hlook⟩ := (firstListUnder_spec kvs envelopeKeys).1 l hfl
      exact absurd hlook (hnone k hk l)

/-- C9 witness: a bare list body is returned as-is, an object with no
envelope key yields the empty list, and a string body yields the empty
list. -/
theorem C9_witness :
    fetch_period_shape (Json.list [Json.null]) = [Json.null] ∧
    fetch_period_shape (Json.obj [("foo", Json.null)]) = [] ∧
    fetch_period_shape (Json.str "x") = [] := by
  have h := C9_fetch_shape_tolerance
  refine ⟨h.1 [Json.null], ?_, h.2.2.2.1 "x"⟩
  refine h.2.2.1 [("foo", Json.null)] ?_
  intro k hk l hl
  simp only [envelopeKeys, List.mem_cons, List.not_mem_nil, or_false] at hk
  rcases hk with rfl | rfl | rfl | rfl <;> exact Option.noConfusion hl
